import Mathlib

/-!
Verification of the rustzork Z-machine v3 interpreter (src/main.rs).

The definitions below are a shallow embedding of the Rust source.  The byte
image is a `List Nat` whose entries model `u8` values (reads reduce mod 256,
mirroring the `u8` element type of the Rust `Vec<u8>`); the evaluation stack is
a `List Nat` of `u16` words with the top at the END of the list, exactly as the
Rust `Vec<u16>` pushes and pops at the end; the frame stack likewise keeps its
top frame at the end of the list, so `frames.last()` is `List.getLast?`.
Machine integers are modeled as `Nat`/`Int` with explicit `% 256`, `% 0x10000`
or `&&& mask` at the points where the Rust code casts (`as u8`, `as u16`) or
where the Rust integer type itself truncates.

Rust panics (`unwrap` on `None`, out-of-bounds `Vec` indexing, and
`unimplemented!()`) have no direct counterpart in total functions: reads out of
bounds use `getD _ 0`, writes out of bounds are `List.set` no-ops, `unwrap` on
a missing value takes a default, and `Property.read` returns `none` for the
`unimplemented!()` arm.  Theorems that depend on the distinction carry explicit
in-bounds hypotheses.  Loops whose termination depends on data (the ZString
word scan, abbreviation expansion, the property-list walk and the sibling-chain
walk of `Object::remove`) take an explicit fuel argument that is chosen large
enough to cover every terminating run of the Rust loop.
-/

namespace RustZork

/-- Big-endian byte read, `Memory::read_u8`.  The `% 256` models the `u8`
element type of the underlying buffer. -/
def read_u8 (mem : List Nat) (offset : Nat) : Nat :=
  mem.getD offset 0 % 256

/-- Big-endian 16-bit read, `Memory::read_u16`:
`((memory[offset] as u16) << 8) | memory[offset + 1]`. -/
def read_u16 (mem : List Nat) (offset : Nat) : Nat :=
  ((read_u8 mem offset) <<< 8) ||| read_u8 mem (offset + 1)

/-- Byte write, `Memory::write_u8`.  The `% 256` models the `as u8` cast of
values stored into the `u8` buffer. -/
def write_u8 (mem : List Nat) (offset val : Nat) : List Nat :=
  mem.set offset (val % 256)

/-- 16-bit big-endian write, `Memory::write_u16`:
`memory[offset] = (val >> 8) as u8; memory[offset+1] = (val & 0xff) as u8`. -/
def write_u16 (mem : List Nat) (offset val : Nat) : List Nat :=
  write_u8 (write_u8 mem offset (val >>> 8)) (offset + 1) (val &&& 0xff)

/-- Operand of a decoded instruction (enum `Operand`). -/
inductive Operand where
  | Large : Nat → Operand
  | Small : Nat → Operand
  | Variable : Nat → Operand
  | Indirect : Nat → Operand
  | Omitted : Operand
  deriving Repr, DecidableEq

/-- Return-storage descriptor (enum `Return`). -/
inductive Return where
  | Variable : Nat → Return
  | Indirect : Nat → Return
  | Omitted : Return
  deriving Repr, DecidableEq

/-- Call frame (struct `Frame`). -/
structure Frame where
  addr : Nat
  stack_start : Nat
  num_locals : Nat
  return_storage : Return
  return_addr : Nat
  deriving Repr, DecidableEq

/-- The header fields used by the operations modeled here (struct `Header`;
`dynamic_start` is always 0 in `Header::new`, `globals` is read from byte
offset 0xc).  The remaining fields of the Rust struct are not consulted by any
of the modeled operations and are omitted. -/
structure Header where
  dynamic_start : Nat
  globals : Nat
  deriving Repr, DecidableEq

/-- The two modeled fields of `Header::new`. -/
def Header.new (mem : List Nat) : Header :=
  ⟨0, read_u16 mem 0xc⟩

/-- Machine state (struct `Machine` restricted to the components that the
modeled operations touch: the byte image, the evaluation stack, the frame
stack, the instruction pointer and the header.  The dictionary, the I/O port,
the `finished` flag and the RNG are carried separately where needed). -/
structure Machine where
  memory : List Nat
  stack : List Nat
  frames : List Frame
  ip : Nat
  header : Header
  deriving Repr, DecidableEq

/-- Encoding class of an instruction (enum `Encoding`). -/
inductive Encoding where
  | Op0
  | Op1
  | Op2
  | Var
  deriving Repr, DecidableEq

/-- Decoded ZString (struct `ZString`): image offset, encoded byte length and
decoded text.  Text is modeled as `List Char`; the Rust `String` holds the
same characters and, all being ASCII, `String::len` equals the list length. -/
structure ZStr where
  offset : Nat
  length : Nat
  contents : List Char
  deriving Repr, DecidableEq

/-- Decoded instruction record (struct `Instruction`). -/
structure Instruction where
  offset : Nat
  opcode : Nat
  optype : Encoding
  length : Nat
  args : List Operand
  ret : Return
  string : Option ZStr
  jump_offset : Option Int
  compare : Option Bool
  deriving Repr, DecidableEq

/-- Local read, `Machine::read_local`: when the frame stack is empty the Rust
code returns `0u16`; otherwise it indexes the evaluation stack at
`frame.stack_start + var`. -/
def Machine.read_local (m : Machine) (var : Nat) : Nat :=
  match m.frames.getLast? with
  | some frame => m.stack.getD (frame.stack_start + var) 0
  | none => 0

/-- Global read, `Machine::read_global`. -/
def Machine.read_global (m : Machine) (var : Nat) : Nat :=
  read_u16 m.memory (m.header.globals + m.header.dynamic_start + var * 2)

/-- Local write, `Machine::write_local`: a silent no-op when the frame stack is
empty (the `if let` falls through). -/
def Machine.write_local (m : Machine) (var val : Nat) : Machine :=
  match m.frames.getLast? with
  | some frame => { m with stack := m.stack.set (frame.stack_start + var) val }
  | none => m

/-- Global write, `Machine::write_global`. -/
def Machine.write_global (m : Machine) (var val : Nat) : Machine :=
  { m with memory := write_u16 m.memory (m.header.globals + m.header.dynamic_start + var * 2) val }

/-- Variable read, `Machine::read_var`.  Reading `Variable(0)` pops the stack
(Rust `pop().unwrap()`; the empty-stack panic is modeled by `getLastD _ 0`),
`Indirect(0)` peeks without popping, constants evaluate to themselves. -/
def Machine.read_var (m : Machine) (var : Operand) : Nat × Machine :=
  match var with
  | .Variable x =>
    if x ≥ 0x10 then (m.read_global (x - 0x10), m)
    else if x = 0 then (m.stack.getLastD 0, { m with stack := m.stack.dropLast })
    else (m.read_local (x - 1), m)
  | .Indirect x =>
    if x ≥ 0x10 then (m.read_global (x - 0x10), m)
    else if x = 0 then (m.stack.getLastD 0, m)
    else (m.read_local (x - 1), m)
  | .Large x => (x, m)
  | .Small x => (x, m)
  | .Omitted => (0, m)

/-- Variable write, `Machine::write_var`.  Writing `Variable(0)` pushes,
`Indirect(0)` pops then pushes (replace top), `Return::Omitted` is a no-op. -/
def Machine.write_var (m : Machine) (var : Return) (val : Nat) : Machine :=
  match var with
  | .Variable x =>
    if x ≥ 0x10 then m.write_global (x - 0x10) val
    else if x = 0 then { m with stack := m.stack ++ [val] }
    else m.write_local (x - 1) val
  | .Indirect x =>
    if x ≥ 0x10 then m.write_global (x - 0x10) val
    else if x = 0 then { m with stack := m.stack.dropLast ++ [val] }
    else m.write_local (x - 1) val
  | .Omitted => m

/-- Sequential evaluation of an operand list through `read_var` (the
`i.args[1..].iter().map(|&a| self.read_var(a))` of `Machine::call`). -/
def readVarList (m : Machine) : List Operand → List Nat × Machine
  | [] => ([], m)
  | a :: rest =>
    let r := m.read_var a
    let rr := readVarList r.2 rest
    (r.1 :: rr.1, rr.2)

/-- Call opcode, `Machine::call` (lines 1055-1081): operand 0 is a packed
routine address (times 2 plus `dynamic_start`); address 0 is a no-op that
stores 0; otherwise a frame is pushed whose `stack_start` is the current stack
depth, the locals are pushed (supplied arguments first, defaults from the
routine header otherwise) and `ip` moves to the routine body. -/
def Machine.call (m0 : Machine) (i : Instruction) : Machine :=
  let r0 := m0.read_var (i.args.getD 0 .Omitted)
  let addr := r0.2.header.dynamic_start + r0.1 * 2
  let ret_addr := r0.2.ip + i.length
  let ra := readVarList r0.2 (i.args.drop 1)
  let m := ra.2
  if addr - m.header.dynamic_start = 0 then
    let m1 := m.write_var i.ret 0
    { m1 with ip := ret_addr }
  else
    let num_locals := read_u8 m.memory addr
    let m1 := { m with frames := m.frames ++ [(⟨addr, m.stack.length, num_locals, i.ret, ret_addr⟩ : Frame)] }
    let locals := (List.range num_locals).map (fun j =>
      if j < ra.1.length then ra.1.getD j 0 else read_u16 m1.memory (addr + 1 + j * 2))
    { m1 with stack := m1.stack ++ locals, ip := addr + 1 + num_locals * 2 }

/-- Return, `Machine::ret` (lines 1083-1090): pop the top frame, shrink the
evaluation stack back to `frame.stack_start`, write the return value through
the frame return storage and jump to the frame return address.  The Rust
`while stack.len() != stack_start {{ pop }}` loop terminates exactly when
`stack_start ≤ stack.len()`, in which case it equals `List.take stack_start`;
the frame discipline guarantees that bound.  Popping the frame of an empty
frame stack panics in Rust; here it is a no-op. -/
def Machine.ret (m : Machine) (val : Nat) : Machine :=
  match m.frames.getLast? with
  | none => m
  | some frame =>
    let m1 := { m with frames := m.frames.dropLast, stack := m.stack.take frame.stack_start }
    let m2 := m1.write_var frame.return_storage val
    { m2 with ip := frame.return_addr }

/-- Branch-opcode membership test of `Instruction::add_branch`. -/
def isBranchOpcode (optype : Encoding) (opcode : Nat) : Bool :=
  match optype with
  | .Op2 => (decide (1 ≤ opcode ∧ opcode ≤ 7)) || (opcode == 10)
  | .Op1 => decide (opcode ≤ 2)
  | .Op0 => (opcode == 5) || (opcode == 6) || (opcode == 0xd) || (opcode == 0xf)
  | .Var => false

/-- Branch-descriptor decoding of `Instruction::add_branch` (lines 619-638),
returning the signed jump offset, the polarity bit and the descriptor length.
One byte when bit 0x40 of the first byte is set (offset = low 6 bits),
otherwise two bytes (offset = low 5 bits of byte 1 with all 8 bits of byte 2);
the top bit is the polarity; the value is then masked with 0x7fff and mapped to
`-(0x1fff - offset + 1)` when above 0x0fff. -/
def branchDescriptor (mem : List Nat) (pos : Nat) : Int × Bool × Nat :=
  let branch1 := read_u8 mem pos
  let offset0 := (0x80 &&& branch1) <<< 8
  let r :=
    if branch1 &&& 0x40 ≠ 0 then (offset0 ||| (branch1 &&& 0x3f), 1)
    else
      let branch2 := read_u8 mem (pos + 1)
      ((offset0 ||| ((branch1 &&& 0x1f) <<< 8)) ||| branch2, 2)
  let compare := decide (r.1 &&& 0x8000 ≠ 0)
  let offset := r.1 &&& 0x7fff
  let joff : Int := if offset > 0x0fff then -((0x1fff : Int) - (offset : Int) + 1) else (offset : Int)
  (joff, compare, r.2)

/-- Branch fixup, `Instruction::add_branch`: when the opcode branches, decode
the descriptor trailing the instruction and extend the length. -/
def Instruction.add_branch (i : Instruction) (mem : List Nat) : Instruction :=
  if isBranchOpcode i.optype i.opcode then
    let r := branchDescriptor mem (i.offset + i.length)
    { i with jump_offset := some r.1, compare := some r.2.1, length := i.length + r.2.2 }
  else i

/-- Shift register of the ZString decoder (enum `ZStringShift`). -/
inductive ZStringShift where
  | Zero
  | One
  | Two
  deriving Repr, DecidableEq

/-- Alphabet tables of `ZString::with_bytes`.  The A2 row is
`"______^\n0123456789.,!?_#"` followed by the apostrophe (`Char.ofNat 39`) and
`"\"/\\-:()"`. -/
def alphabetOf : ZStringShift → List Char
  | .Zero => ("______abcdefghijklmnopqrstuvwxyz").toList
  | .One => ("______ABCDEFGHIJKLMNOPQRSTUVWXYZ").toList
  | .Two => ("______^\n0123456789.,!?_#").toList ++ [Char.ofNat 39] ++ ("\"/\\-:()").toList

/-- Word scan of `ZString::new`: slice each 16-bit word into three 5-bit codes
until the first word with the top bit set, returning the codes and the byte
length.  The fuel bounds the scan (the Rust loop would run off the end of the
image and panic if no terminator exists). -/
def zwords (mem : List Nat) : Nat → Nat → List Nat × Nat
  | _, 0 => ([], 0)
  | offset, fuel + 1 =>
    let x := read_u16 mem offset
    let codes := [(x >>> 10) &&& 0x1f, (x >>> 5) &&& 0x1f, x &&& 0x1f]
    if x &&& 0x8000 ≠ 0 then (codes, 2)
    else
      let r := zwords mem (offset + 2) fuel
      (codes ++ r.1, r.2 + 2)

/-- Code walk of `ZString::with_bytes`.  `expand` decodes the ZString found at
an abbreviation target (the recursive `ZString::new` call).  Code 0 emits a
space (shift preserved), codes 1-3 consume the next code and splice in an
abbreviation (shift preserved), 4 and 5 arm one-shot shifts, code 6 in A2
consumes two codes and emits a literal byte, anything else emits the alphabet
character; after the last two cases the shift resets to A0.  Missing look-ahead
codes (`it.next().unwrap()` panics in Rust) default to 0. -/
def zdecodeGo (mem : List Nat) (expand : Nat → List Char) :
    Nat → List Nat → ZStringShift → List Char
  | 0, _, _ => []
  | _, [], _ => []
  | fuel + 1, c :: rest, shift =>
    if c = 0 then
      Char.ofNat 32 :: zdecodeGo mem expand fuel rest shift
    else if c ≤ 3 then
      let ab := rest.headD 0
      let table := read_u16 mem 0x18
      let index := 32 * (c - 1) + ab
      let off := read_u16 mem (table + index * 2)
      expand (off * 2) ++ zdecodeGo mem expand fuel rest.tail shift
    else if c = 4 then
      zdecodeGo mem expand fuel rest .One
    else if c = 5 then
      zdecodeGo mem expand fuel rest .Two
    else if shift = .Two ∧ c = 6 then
      let c2 := rest.headD 0
      let c3 := rest.tail.headD 0
      Char.ofNat (((c2 <<< 5) % 256) ||| (c3 &&& 0x1f)) ::
        zdecodeGo mem expand fuel rest.tail.tail .Zero
    else
      (alphabetOf shift).getD c (Char.ofNat 95) :: zdecodeGo mem expand fuel rest .Zero

/-- Code walk at full fuel: every loop iteration of `ZString::with_bytes`
consumes at least one code, so fuel `codes.length` covers the whole walk. -/
def zdecodeCodes (mem : List Nat) (expand : Nat → List Char)
    (codes : List Nat) (shift : ZStringShift) : List Char :=
  zdecodeGo mem expand codes.length codes shift

/-- Abbreviation expansion: the recursive `ZString::new` call inside
`ZString::with_bytes`, with a depth fuel (the Rust code would recurse without
bound on cyclic abbreviation tables). -/
def zexpand (mem : List Nat) : Nat → Nat → List Char
  | 0, _ => []
  | depth + 1, offset =>
    zdecodeCodes mem (zexpand mem depth) (zwords mem offset (mem.length + 2)).1 .Zero

/-- Full ZString decode, `ZString::new`: scan the words from `offset`, then
decode the codes starting in alphabet A0. -/
def ZString.new (mem : List Nat) (offset : Nat) : ZStr :=
  let r := zwords mem offset (mem.length + 2)
  ⟨offset, r.2, zdecodeCodes mem (zexpand mem mem.length) r.1 .Zero⟩

/-- Property record, `Property::new`: the size byte packs
`index = size & 31` and `length = ((size & 0xe0) >> 5) + 1`. -/
structure Property where
  offset : Nat
  index : Nat
  length : Nat
  deriving Repr, DecidableEq

/-- Decode a property size byte, `Property::new`. -/
def Property.new (mem : List Nat) (offset : Nat) : Property :=
  let size := read_u8 mem offset
  ⟨offset, size &&& 31, ((size &&& 0xe0) >>> 5) + 1⟩

/-- Property payload read, `Property::read`: one byte zero-extended when the
length is 1, a 16-bit word when it is 2, and `none` for the
`unimplemented!()` panic on any other length. -/
def Property.read (p : Property) (mem : List Nat) : Option Nat :=
  if p.length = 1 then some (read_u8 mem (p.offset + 1))
  else if p.length = 2 then some (read_u16 mem (p.offset + 1))
  else none

/-- Object-table layout constants. -/
def OBJECT_SIZE : Nat := 9

/-- Number of default-property entries. -/
def NUM_DEFAULTS : Nat := 31

/-- Byte size of the default-property table. -/
def DEFAULT_TABLE_SIZE : Nat := NUM_DEFAULTS * 2

/-- Record address of an object: `read_u16(0xa) + 62 + (index - 1) * 9`
(recomputed from the image by every Rust accessor). -/
def objAddr (mem : List Nat) (index : Nat) : Nat :=
  read_u16 mem 0xa + DEFAULT_TABLE_SIZE + (index - 1) * OBJECT_SIZE

/-- Object record (struct `Object`). -/
structure Object where
  offset : Nat
  index : Nat
  attrib : Nat
  parent : Nat
  sibling : Nat
  child : Nat
  name : ZStr
  deriving Repr, DecidableEq

/-- Object load, `Object::new`: reads the 32-bit attribute word, the three
link bytes and the property pointer, and decodes the short name found one byte
into the property block. -/
def Object.new (mem : List Nat) (index : Nat) : Object :=
  let addr := objAddr mem index
  let prop_addr := read_u16 mem (addr + 7)
  { offset := prop_addr
    index := index
    attrib := ((read_u16 mem addr) <<< 16) ||| read_u16 mem (addr + 2)
    parent := read_u8 mem (addr + 4)
    sibling := read_u8 mem (addr + 5)
    child := read_u8 mem (addr + 6)
    name := ZString.new mem (prop_addr + 1) }

/-- Link refresh, `Object::refresh`: re-read parent, sibling and child from the
image. -/
def Object.refresh (o : Object) (mem : List Nat) : Object :=
  let addr := objAddr mem o.index
  { o with
    parent := read_u8 mem (addr + 4)
    sibling := read_u8 mem (addr + 5)
    child := read_u8 mem (addr + 6) }

/-- Object store, `Object::write`: writes the attribute words, the three link
bytes (`as u8` casts) and the property pointer back to the record address
computed from the current image. -/
def Object.write (o : Object) (mem : List Nat) : List Nat :=
  let addr := objAddr mem o.index
  let mem := write_u16 mem addr ((o.attrib >>> 16) &&& 0xffff)
  let mem := write_u16 mem (addr + 2) (o.attrib &&& 0xffff)
  let mem := write_u8 mem (addr + 4) o.parent
  let mem := write_u8 mem (addr + 5) o.sibling
  let mem := write_u8 mem (addr + 6) o.child
  write_u16 mem (addr + 7) o.offset

/-- Property-list walk of `Object::get_property`: a terminator (index 0) falls
back to `Property::new` applied to the default-table entry at
`read_u16(0xa) + (target - 1) * 2`; otherwise return the matching property or
step over `length + 1` bytes.  Fuel bounds the walk. -/
def getPropertyAux (mem : List Nat) (target : Nat) : Nat → Nat → Property
  | 0, addr => Property.new mem addr
  | fuel + 1, addr =>
    let p := Property.new mem addr
    if p.index = 0 then Property.new mem (read_u16 mem 0xa + (target - 1) * 2)
    else if p.index = target then p
    else getPropertyAux mem target fuel (addr + p.length + 1)

/-- Property lookup, `Object::get_property`: the walk starts one byte past the
short name at the head of the property block. -/
def Object.get_property (o : Object) (mem : List Nat) (target : Nat) : Property :=
  getPropertyAux mem target (mem.length + 1) (o.offset + 1 + o.name.length)

/-- Value computed by the `get_prop` opcode arm (lines 1309-1314): load the
object, look the property up and read its payload (`none` models the
`unimplemented!()` panic on a decoded length above 2). -/
def getPropValue (mem : List Nat) (objIndex target : Nat) : Option Nat :=
  ((Object.new mem objIndex).get_property mem target).read mem

/-- Sibling-chain walk of `Object::remove`: follow sibling links until the
object whose sibling is the removed one.  Fuel bounds the walk (the Rust
`while` loop does not terminate when the chain never reaches the target). -/
def findInChain (mem : List Nat) (selfIndex : Nat) : Nat → Object → Object
  | 0, child => child
  | fuel + 1, child =>
    if child.sibling = selfIndex then child
    else findInChain mem selfIndex fuel (Object.new mem child.sibling)

/-- Detach, `Object::remove` (lines 849-868): when the object has a parent,
patch either the parent child link or the predecessor sibling link; then zero
the object parent and sibling and write it back.  Returns the updated struct
and image. -/
def Object.remove (obj : Object) (mem : List Nat) : Object × List Nat :=
  let mem :=
    if obj.parent ≠ 0 then
      let parent := Object.new mem obj.parent
      let child := Object.new mem parent.child
      if child.index = obj.index then
        Object.write { parent with child := obj.sibling } mem
      else
        let child := findInChain mem obj.index mem.length child
        Object.write { child with sibling := obj.sibling } mem
    else mem
  let obj := { obj with parent := 0, sibling := 0 }
  (obj, Object.write obj mem)

/-- Image after detaching object `o`, i.e. the memory component of
`Object::remove` applied to the freshly loaded object — the state the
`insert_obj` arm re-reads its destination from. -/
def detachMem (mem : List Nat) (o : Nat) : List Nat :=
  ((Object.new mem o).remove mem).2

/-- The `insert_obj` opcode arm (lines 1263-1276): load both objects, detach
the moved one, refresh the destination from the detached image, relink
(`obj.sibling = dest.child; dest.child = obj.index; obj.parent = dest.index`)
and write both records back. -/
def insertObj (mem : List Nat) (o d : Nat) : List Nat :=
  let obj := Object.new mem o
  let dest := Object.new mem d
  let r := obj.remove mem
  let obj1 := r.1
  let mem1 := r.2
  let dest1 := dest.refresh mem1
  let obj2 := { obj1 with sibling := dest1.child, parent := dest1.index }
  let dest2 := { dest1 with child := obj1.index }
  let mem2 := obj2.write mem1
  dest2.write mem2

/-- Dictionary (struct `Dictionary`): separator characters and decoded entry
words.  `Dictionary::new` builds these from the image; the claims checked here
quantify over the built structure, so the constructor is not re-modeled. -/
structure Dictionary where
  offset : Nat
  separators : List Char
  words : List ZStr
  deriving Repr, DecidableEq

/-- Entry scan of `Dictionary::get_word`: an entry of decoded length below 6
matches only by equality, otherwise by being a prefix of the token; the first
match wins. -/
def getWordAux (token : List Char) : List ZStr → Option ZStr
  | [] => none
  | w :: rest =>
    if w.contents.length < 6 then
      if w.contents = token then some w else getWordAux token rest
    else
      if w.contents.isPrefixOf token then some w else getWordAux token rest

/-- Dictionary lookup, `Dictionary::get_word` (lines 907-921). -/
def Dictionary.get_word (d : Dictionary) (token : List Char) : Option ZStr :=
  getWordAux token d.words

/-- Splitter with the semantics of Rust `str::split(pred)`: empty pieces are
produced between adjacent separators and at the ends. -/
def splitChars (p : Char → Bool) : List Char → List Char → List (List Char)
  | [], acc => [acc.reverse]
  | c :: rest, acc =>
    if p c then acc.reverse :: splitChars p rest []
    else splitChars p rest (c :: acc)

/-- Token list of the `sread` arm:
`input.split(|c| c == ' ' || separators.contains(c))`. -/
def sreadTokens (d : Dictionary) (input : List Char) : List (List Char) :=
  splitChars (fun c => (c = Char.ofNat 32) || d.separators.contains c) input []

/-- First index of `t` as a sublist of `s` — Rust `str::find` with a substring
pattern (byte and character indices agree on the ASCII inputs involved). -/
def strFind (s t : List Char) : Option Nat :=
  if t.isPrefixOf s then some 0
  else
    match s with
    | [] => none
    | _ :: rest =>
      match strFind rest t with
      | some n => some (n + 1)
      | none => none

/-- Parse-record loop of the `sread` arm (lines 1366-1376): for each token,
four bytes at `y + 2 + 4 * i`: the dictionary entry offset (0 when unmatched),
the token length (`as u8`), and `input.find(token) + 1` (the `as u8` cast
precedes the `+ 1`). -/
def sreadWriteTokens (d : Dictionary) (input : List Char) (y : Nat) :
    List Nat → Nat → List (List Char) → List Nat
  | mem, _, [] => mem
  | mem, idx, token :: rest =>
    let offset := y + 2 + 4 * idx
    let mem :=
      match d.get_word token with
      | some zs => write_u16 mem offset zs.offset
      | none => write_u16 mem offset 0
    let mem := write_u8 mem (offset + 2) token.length
    let index := (strFind input token).getD 0
    let mem := write_u8 mem (offset + 3) ((index % 256) + 1)
    sreadWriteTokens d input y mem (idx + 1) rest

/-- Parse-buffer portion of the `sread` arm (lines 1361-1376): tokenize the
(already lowercased and trimmed) input, clamp to the buffer capacity read at
`y`, record the count at `y + 1` and write the token records. -/
def sreadParse (mem : List Nat) (d : Dictionary) (input : List Char) (y : Nat) : List Nat :=
  let tokens := sreadTokens d input
  let max_parse := min (read_u8 mem y) tokens.length
  let mem1 := write_u8 mem (y + 1) max_parse
  sreadWriteTokens d input y mem1 0 (tokens.take max_parse)

/-- Result states of `Machine::execute` (enum `MachineState`). -/
inductive MachineState where
  | Continue
  | GetInput
  | Break : String → MachineState
  | CleanExit
  deriving Repr, DecidableEq

/-- The `convert_arg!(…, Variable)` macro arm (lines 1139-1146): a Large or
Small operand is taken literally (cast `as u8`), a Variable operand is
dereferenced exactly once through `read_var` (then cast `as u8`); the
remaining cases hit `unimplemented!()` in Rust and cannot be produced by the
decoder. -/
def convertVariableArg (m : Machine) (i : Instruction) : Nat × Machine :=
  match i.args.getD 0 .Omitted with
  | .Large x => (x % 256, m)
  | .Small x => (x, m)
  | .Variable _ =>
    let r := m.read_var (i.args.getD 0 .Omitted)
    (r.1 % 256, r.2)
  | _ => (0, m)

/-- The `store` opcode arm (lines 1217-1220): resolve the target variable
number with literal-constant semantics, read the value, and write through
`Return::Indirect` (replace-top on the stack). -/
def Machine.op_store (m : Machine) (i : Instruction) : Machine :=
  let rx := convertVariableArg m i
  let ry := rx.2.read_var (i.args.getD 1 .Omitted)
  ry.2.write_var (.Indirect rx.1) ry.1

/-- Sign reinterpretation of a `u16` value as `i16` (the `as i16` cast of
`read_args!(i16, i16)`). -/
def toI16 (n : Nat) : Int :=
  if n < 0x8000 then (n : Int) else (n : Int) - 0x10000

/-- Two's-complement truncation of an `i16` value back to `u16`
(the `as u16` cast). -/
def toU16 (x : Int) : Nat :=
  (x % 0x10000).toNat

/-- The `div` opcode arm (lines 1437-1443): signed 16-bit operands, a zero
divisor yields `Break("divide by zero\n")` with nothing stored, otherwise the
truncated quotient of Rust `i16` division (`Int.tdiv`) is stored.  Rust signed
division additionally panics on overflow in every build profile: `x / y` with
`x = i16::MIN` and `y = -1` aborts the process instead of producing a value;
`none` models that abort. -/
def Machine.op_div (m : Machine) (i : Instruction) : Option (MachineState × Machine) :=
  let rx := m.read_var (i.args.getD 0 .Omitted)
  let ry := rx.2.read_var (i.args.getD 1 .Omitted)
  let x := toI16 rx.1
  let y := toI16 ry.1
  if y = 0 then some (.Break ("divide by zero\n"), ry.2)
  else if x = -0x8000 ∧ y = -1 then none
  else some (.Continue, ry.2.write_var i.ret (toU16 (x.tdiv y)))

/-- The `mod` opcode arm (lines 1457-1463): as `div` but storing the Rust `%`
remainder, which is `Int.tmod` (sign follows the dividend).  Rust `%` likewise
panics on overflow: `i16::MIN % -1` aborts the process; `none` models that
abort. -/
def Machine.op_mod (m : Machine) (i : Instruction) : Option (MachineState × Machine) :=
  let rx := m.read_var (i.args.getD 0 .Omitted)
  let ry := rx.2.read_var (i.args.getD 1 .Omitted)
  let x := toI16 rx.1
  let y := toI16 ry.1
  if y = 0 then some (.Break ("divide by zero\n"), ry.2)
  else if x = -0x8000 ∧ y = -1 then none
  else some (.Continue, ry.2.write_var i.ret (toU16 (x.tmod y)))

/-- Constant operands (Large or Small): evaluated by `read_var` without
touching the machine. -/
def Operand.isConst : Operand → Bool
  | .Large _ => true
  | .Small _ => true
  | _ => false

/-- Value of a constant operand. -/
def Operand.constVal : Operand → Nat
  | .Large x => x
  | .Small x => x
  | _ => 0

/-- Spec-side matching rule, written from the specification words for the
dictionary-lookup claim (the refinement counterpart of `Dictionary.get_word`):
an entry with decoded text shorter than 6 characters matches only when its
text equals the token exactly, and an entry with full-length text matches
whenever its text is a prefix of the token. -/
def specEntryMatch (w token : List Char) : Bool :=
  if w.length < 6 then w == token else decide (w <+: token)

/-!
Concrete images and machines used to evaluate the model at specific inputs.
-/

/-- Image for the `get_prop` default-value evaluation: object-table base 32
(bytes 0xa-0xb), default entry for property 1 holding bytes 0x01 0x02 at
offsets 32-33, object 1 record at 94-102 with property pointer 110, a one-word
short name 0x8000 at 111-112 and a property-list terminator at 113. -/
def cmem3 : List Nat :=
  (((((List.replicate 120 0).set 0xb 32).set 32 1).set 33 2).set 102 110).set 111 0x80

/-- Image with two detached objects: object-table base 32, object 1 record at
94-102 (property pointer 114, name word 0x8000 at 115-116), object 2 record at
103-111 (property pointer 118, name word 0x8000 at 119-120). -/
def cmem4 : List Nat :=
  (((((List.replicate 122 0).set 0xb 32).set 102 114).set 115 0x80).set 111 118).set 119 0x80

/-- Machine for the call/return evaluation: a routine header at address 10
with one local defaulting to 0x1111, empty stacks, `ip` 100, globals table at
50. -/
def cmC2 : Machine :=
  ⟨(((List.replicate 60 0).set 10 1).set 11 0x11).set 12 0x11, [], [], 100, ⟨0, 50⟩⟩

/-- Call instruction for the call/return evaluation: packed routine address 5
(byte address 10), one argument 0x2222, result to global 0, length 5. -/
def ciC2 : Instruction :=
  ⟨100, 0, .Var, 5, [.Large 5, .Large 0x2222], .Variable 0x10, none, none, none⟩

/-- Dictionary with the single entry north at image offset 300. -/
def cdict6 : Dictionary :=
  ⟨0, [], [⟨300, 4, ("north").toList⟩]⟩

/-- Parse buffer of capacity 10 at address 0. -/
def cmem6 : List Nat :=
  (List.replicate 12 0).set 0 10

/-- The repeated-token input line. -/
def inputC6 : List Char :=
  ("north north").toList

/-- Dictionary for the lookup evaluation: a 3-character entry and a
6-character entry. -/
def cdict7 : Dictionary :=
  ⟨0, [], [⟨10, 4, ("abc").toList⟩, ⟨20, 4, ("abcdef").toList⟩]⟩

/-- Token for the lookup evaluation. -/
def tokenC7 : List Char :=
  ("abcdefgh").toList

/-- Machine with a one-deep evaluation stack for the store evaluation. -/
def cm5 : Machine :=
  ⟨[], [5], [], 0, ⟨0, 0⟩⟩

/-- Store instruction whose target operand is `Small 3`. -/
def ci5 : Instruction :=
  ⟨0, 13, .Op2, 3, [.Small 3, .Small 9], .Omitted, none, none, none⟩

/-- Store instruction whose target operand is `Large 0x100`. -/
def ci5L : Instruction :=
  ⟨0, 13, .Op2, 4, [.Large 0x100, .Small 7], .Omitted, none, none, none⟩

/-- Empty machine for the div and mod evaluations. -/
def cm8 : Machine :=
  ⟨[], [], [], 0, ⟨0, 0⟩⟩

/-- A div or mod instruction with operands 7 and 0. -/
def ci8a : Instruction :=
  ⟨0, 0x17, .Op2, 4, [.Large 7, .Large 0], .Variable 0, none, none, none⟩

/-- A div or mod instruction with operands -7 (0xFFF9) and 2. -/
def ci8b : Instruction :=
  ⟨0, 0x17, .Op2, 4, [.Large 0xFFF9, .Large 2], .Variable 0, none, none, none⟩

/-- A div or mod instruction with operands -32768 (0x8000) and -1 (0xFFFF),
the signed-division overflow pair. -/
def ci8c : Instruction :=
  ⟨0, 0x17, .Op2, 4, [.Large 0x8000, .Large 0xFFFF], .Variable 0, none, none, none⟩

/-- Machine with an empty frame stack for the local-variable evaluation. -/
def cm10 : Machine :=
  ⟨[7, 7], [9], [], 0, ⟨0, 0⟩⟩

/-!
Helper lemmas about the byte-image primitives and the machine operations.
-/

theorem getD_set_ne (l : List Nat) (i j v d : Nat) (h : i ≠ j) :
    (l.set i v).getD j d = l.getD j d := by
  simp [List.getD_eq_getElem?_getD, List.getElem?_set_ne h]

theorem getD_set_eq (l : List Nat) (i v d : Nat) (h : i < l.length) :
    (l.set i v).getD i d = v := by
  simp [List.getD_eq_getElem?_getD, List.getElem?_set_self h]

theorem length_write_u8 (mem : List Nat) (o v : Nat) :
    (write_u8 mem o v).length = mem.length := by
  simp [write_u8]

theorem length_write_u16 (mem : List Nat) (o v : Nat) :
    (write_u16 mem o v).length = mem.length := by
  simp [write_u16, write_u8]

theorem read_u8_write_u8_ne (mem : List Nat) (o j v : Nat) (h : j ≠ o) :
    read_u8 (write_u8 mem o v) j = read_u8 mem j := by
  unfold read_u8 write_u8
  rw [getD_set_ne _ _ _ _ _ (Ne.symm h)]

theorem read_u8_write_u8_eq (mem : List Nat) (o v : Nat) (h : o < mem.length) :
    read_u8 (write_u8 mem o v) o = v % 256 := by
  unfold read_u8 write_u8
  rw [getD_set_eq _ _ _ _ h]
  omega

theorem read_u8_write_u16_ne (mem : List Nat) (o j v : Nat) (h1 : j ≠ o) (h2 : j ≠ o + 1) :
    read_u8 (write_u16 mem o v) j = read_u8 mem j := by
  simp only [write_u16]
  rw [read_u8_write_u8_ne _ _ _ _ h2, read_u8_write_u8_ne _ _ _ _ h1]

theorem read_u8_lt (mem : List Nat) (j : Nat) : read_u8 mem j < 256 := by
  simp [read_u8]
  omega

theorem tmod_nonpos_of_nonpos (a b : Int) (h : a ≤ 0) : a.tmod b ≤ 0 := by
  cases a with
  | ofNat m =>
    have h2 : (m : Int) ≤ 0 := h
    have hm : m = 0 := by omega
    subst hm
    cases b <;> simp [Int.tmod]
  | negSucc m =>
    cases b <;>
      (simp only [Int.tmod]
       exact neg_nonpos.mpr (Int.ofNat_nonneg _))

theorem write_var_frames (m : Machine) (r : Return) (v : Nat) :
    (m.write_var r v).frames = m.frames := by
  cases r with
  | Variable x =>
    by_cases h1 : x ≥ 0x10
    · simp [Machine.write_var, h1, Machine.write_global]
    · by_cases h2 : x = 0
      · simp [Machine.write_var, h1, h2]
      · cases hL : m.frames.getLast? <;>
          simp [Machine.write_var, h1, h2, Machine.write_local, hL]
  | Indirect x =>
    by_cases h1 : x ≥ 0x10
    · simp [Machine.write_var, h1, Machine.write_global]
    · by_cases h2 : x = 0
      · simp [Machine.write_var, h1, h2]
      · cases hL : m.frames.getLast? <;>
          simp [Machine.write_var, h1, h2, Machine.write_local, hL]
  | Omitted => simp [Machine.write_var]

theorem write_var_global_eq (m : Machine) (g v : Nat) (h : 0x10 ≤ g) :
    m.write_var (.Variable g) v =
      { m with memory :=
          write_u16 m.memory (m.header.globals + m.header.dynamic_start + (g - 0x10) * 2) v } := by
  simp [Machine.write_var, h, Machine.write_global]

theorem read_var_const (m : Machine) (a : Operand) (h : a.isConst = true) :
    m.read_var a = (a.constVal, m) := by
  cases a <;> simp_all [Operand.isConst, Machine.read_var, Operand.constVal]

theorem readVarList_const (m : Machine) (l : List Operand) (h : ∀ a ∈ l, a.isConst = true) :
    readVarList m l = (l.map Operand.constVal, m) := by
  induction l generalizing m with
  | nil => simp [readVarList]
  | cons a rest ih =>
    have ha := h a (by simp)
    have hr : ∀ b ∈ rest, b.isConst = true := fun b hb => h b (by simp [hb])
    simp [readVarList, read_var_const m a ha, ih m hr]

theorem length_objectWrite (o : Object) (mem : List Nat) :
    (o.write mem).length = mem.length := by
  simp [Object.write, length_write_u16, length_write_u8]

theorem read_u8_objectWrite_outside (o : Object) (mem : List Nat) (j : Nat)
    (h : j < objAddr mem o.index ∨ objAddr mem o.index + 8 < j) :
    read_u8 (o.write mem) j = read_u8 mem j := by
  simp only [Object.write]
  rw [read_u8_write_u16_ne _ _ _ _ (by omega) (by omega),
      read_u8_write_u8_ne _ _ _ _ (by omega),
      read_u8_write_u8_ne _ _ _ _ (by omega),
      read_u8_write_u8_ne _ _ _ _ (by omega),
      read_u8_write_u16_ne _ _ _ _ (by omega) (by omega),
      read_u8_write_u16_ne _ _ _ _ (by omega) (by omega)]

theorem read_u16_objectWrite_outside (o : Object) (mem : List Nat) (j : Nat)
    (h1 : j < objAddr mem o.index ∨ objAddr mem o.index + 8 < j)
    (h2 : j + 1 < objAddr mem o.index ∨ objAddr mem o.index + 8 < j + 1) :
    read_u16 (o.write mem) j = read_u16 mem j := by
  simp only [read_u16]
  rw [read_u8_objectWrite_outside _ _ _ h1, read_u8_objectWrite_outside _ _ _ h2]

theorem read_u8_objectWrite_parent (o : Object) (mem : List Nat)
    (h : objAddr mem o.index + 8 < mem.length) :
    read_u8 (o.write mem) (objAddr mem o.index + 4) = o.parent % 256 := by
  simp only [Object.write]
  rw [read_u8_write_u16_ne _ _ _ _ (by omega) (by omega),
      read_u8_write_u8_ne _ _ _ _ (by omega),
      read_u8_write_u8_ne _ _ _ _ (by omega),
      read_u8_write_u8_eq _ _ _ (by simp [length_write_u16]; omega)]

theorem read_u8_objectWrite_sibling (o : Object) (mem : List Nat)
    (h : objAddr mem o.index + 8 < mem.length) :
    read_u8 (o.write mem) (objAddr mem o.index + 5) = o.sibling % 256 := by
  simp only [Object.write]
  rw [read_u8_write_u16_ne _ _ _ _ (by omega) (by omega),
      read_u8_write_u8_ne _ _ _ _ (by omega),
      read_u8_write_u8_eq _ _ _ (by simp [length_write_u16, length_write_u8]; omega)]

theorem read_u8_objectWrite_child (o : Object) (mem : List Nat)
    (h : objAddr mem o.index + 8 < mem.length) :
    read_u8 (o.write mem) (objAddr mem o.index + 6) = o.child % 256 := by
  simp only [Object.write]
  rw [read_u8_write_u16_ne _ _ _ _ (by omega) (by omega),
      read_u8_write_u8_eq _ _ _ (by simp [length_write_u16, length_write_u8]; omega)]

theorem objAddr_congr (mem1 mem2 : List Nat) (x : Nat)
    (h : read_u16 mem1 0xa = read_u16 mem2 0xa) :
    objAddr mem1 x = objAddr mem2 x := by
  simp [objAddr, h]

theorem remove_fst (obj : Object) (mem : List Nat) :
    (obj.remove mem).1 = { obj with parent := 0, sibling := 0 } := rfl

theorem object_new_index (mem : List Nat) (x : Nat) : (Object.new mem x).index = x := rfl

theorem refresh_index (o : Object) (mem : List Nat) : (o.refresh mem).index = o.index := rfl

theorem refresh_child (o : Object) (mem : List Nat) :
    (o.refresh mem).child = read_u8 mem (objAddr mem o.index + 6) := rfl

theorem land_mask_mod (n k : Nat) : n &&& (2 ^ k - 1) = n % 2 ^ k := by
  apply Nat.eq_of_testBit_eq
  intro i
  rw [Nat.testBit_land, Nat.testBit_two_pow_sub_one, Nat.testBit_mod_two_pow, Bool.and_comm]

theorem lor_shiftLeft_add : ∀ (k c b : Nat), b < 2 ^ k → ((c <<< k) ||| b) = c <<< k + b
  | 0, c, b, hb => by
    have hb0 : b = 0 := by simpa using Nat.lt_one_iff.mp (by simpa using hb)
    subst hb0
    simp
  | k + 1, c, b, hb => by
    have hb2 : b / 2 < 2 ^ k := by
      rw [Nat.div_lt_iff_lt_mul (by norm_num)]
      calc b < 2 ^ (k + 1) := hb
        _ = 2 ^ k * 2 := by ring
    have ih := lor_shiftLeft_add k c (b / 2) hb2
    have hc : c <<< (k + 1) = Nat.bit false (c <<< k) := by
      simp [Nat.shiftLeft_eq, Nat.bit_false]
      ring
    have hbdec : b = Nat.bit b.bodd b.div2 := (Nat.bit_decomp b).symm
    rw [hc, hbdec, Nat.lor_bit]
    have hd2 : b.div2 = b / 2 := Nat.div2_val b
    have hparity := Nat.bodd_add_div2 b
    rw [hd2, ih]
    cases hob : b.bodd <;>
      simp [Nat.bit_false, Nat.bit_true, hob] at hparity ⊢ <;> omega

theorem bd_core (b1 b2 : Nat) (h2 : b2 < 256) :
    ((((0x80 &&& b1) <<< 8) ||| ((b1 &&& 0x1f) <<< 8)) ||| b2) &&& 0x7fff
      = (b1 % 32) * 256 + b2 := by
  have e1f : b1 &&& 0x1f = b1 % 32 := by
    have h : (0x1f : Nat) = 2 ^ 5 - 1 := by norm_num
    rw [h, land_mask_mod]
    norm_num
  have e80 : 0x80 &&& b1 = (b1.testBit 7).toNat * 2 ^ 7 := by
    have h : (0x80 : Nat) = 2 ^ 7 := by norm_num
    rw [h, Nat.two_pow_and]
    ring
  set t := (b1.testBit 7).toNat with ht
  have ht1 : t ≤ 1 := by cases hb : b1.testBit 7 <;> simp [ht, hb]
  rw [e1f, e80]
  have ea : (t * 2 ^ 7) <<< 8 = t <<< 15 := by
    simp only [Nat.shiftLeft_eq]
    ring
  rw [ea]
  have hmid : (b1 % 32) <<< 8 < 2 ^ 15 := by
    rw [Nat.shiftLeft_eq]
    have hm : b1 % 32 < 32 := Nat.mod_lt _ (by norm_num)
    norm_num
    omega
  rw [lor_shiftLeft_add 15 t _ hmid]
  have eb : t <<< 15 + (b1 % 32) <<< 8 = (t * 128 + b1 % 32) <<< 8 := by
    simp only [Nat.shiftLeft_eq]
    ring
  rw [eb, lor_shiftLeft_add 8 _ b2 (by norm_num; omega)]
  have h7fff : (0x7fff : Nat) = 2 ^ 15 - 1 := by norm_num
  rw [h7fff, land_mask_mod, Nat.shiftLeft_eq]
  have hm : b1 % 32 < 32 := Nat.mod_lt _ (by norm_num)
  norm_num
  omega

theorem raw13_eq (b1 b2 : Nat) (h2 : b2 < 256) :
    ((b1 &&& 0x1f) <<< 8) ||| b2 = (b1 % 32) * 256 + b2 := by
  have e1f : b1 &&& 0x1f = b1 % 32 := by
    have h : (0x1f : Nat) = 2 ^ 5 - 1 := by norm_num
    rw [h, land_mask_mod]
    norm_num
  rw [e1f, lor_shiftLeft_add 8 _ b2 (by norm_num; omega), Nat.shiftLeft_eq]

theorem branchDescriptor_two_byte (b1 b2 : Nat) (h1 : b1 < 256) (h2 : b2 < 256)
    (h40 : b1 &&& 0x40 = 0) :
    (branchDescriptor [b1, b2] 0).2.2 = 2 ∧
    (branchDescriptor [b1, b2] 0).1 =
      (if (b1 % 32) * 256 + b2 > 0x0fff
        then ((b1 % 32) * 256 + b2 : Int) - 0x2000
        else ((b1 % 32) * 256 + b2 : Int)) := by
  have e1 : read_u8 [b1, b2] 0 = b1 := by
    simp [read_u8]
    omega
  have e2 : read_u8 [b1, b2] (0 + 1) = b2 := by
    simp [read_u8]
    omega
  have hcore := bd_core b1 b2 h2
  simp only [branchDescriptor, e1, e2, h40]
  norm_num
  rw [hcore]
  split_ifs <;> omega

/-!
Claim theorems.
-/

/-- C1 counterexample: the claim states that every raw descriptor value at or
below 0x1FFF stays non-negative; on descriptor bytes 0x1f 0xff (2-byte form,
raw value 0x1FFF) the decoder instead produces the offset -1. -/
theorem C1_counterexample :
    ((0x1f : Nat) &&& 0x40 = 0) ∧
    ((((0x1f : Nat) &&& 0x1f) <<< 8) ||| 0xff) ≤ 0x1fff ∧
    (branchDescriptor [0x1f, 0xff] 0).2.2 = 2 ∧
    (branchDescriptor [0x1f, 0xff] 0).1 = -1 ∧
    ¬ (0 ≤ (branchDescriptor [0x1f, 0xff] 0).1) := by
  decide

/-- C1 amended: for every 2-byte branch descriptor (bit 0x40 of the first
byte clear) the decoder forms the displacement from the low 5 bits of byte 1
concatenated with all 8 bits of byte 2, a 13-bit raw value of at most 0x1FFF;
raw values at or below 0x0FFF stay non-negative, and raw values in
0x1000..=0x1FFF map to the negative value raw - 0x2000. -/
theorem C1_branch_offset_amended (b1 b2 : Nat) (h1 : b1 < 256) (h2 : b2 < 256)
    (h40 : b1 &&& 0x40 = 0) :
    (branchDescriptor [b1, b2] 0).2.2 = 2 ∧
    (((b1 &&& 0x1f) <<< 8) ||| b2) ≤ 0x1fff ∧
    ((((b1 &&& 0x1f) <<< 8) ||| b2) ≤ 0x0fff →
      (branchDescriptor [b1, b2] 0).1 = ((((b1 &&& 0x1f) <<< 8) ||| b2 : Nat) : Int)) ∧
    (0x1000 ≤ (((b1 &&& 0x1f) <<< 8) ||| b2) →
      (branchDescriptor [b1, b2] 0).1 = ((((b1 &&& 0x1f) <<< 8) ||| b2 : Nat) : Int) - 0x2000) := by
  have hraw := raw13_eq b1 b2 h2
  obtain ⟨hlen, hval⟩ := branchDescriptor_two_byte b1 b2 h1 h2 h40
  rw [hraw, hval, hlen]
  have hm : b1 % 32 < 32 := Nat.mod_lt _ (by norm_num)
  refine ⟨rfl, by omega, ?_, ?_⟩
  · intro hle
    rw [if_neg (by omega)]
    omega
  · intro hge
    rw [if_pos (by omega)]
    omega

/-- C1 witness: the amended theorem applied to the concrete descriptor bytes
0x00 0x05 (raw value 5, which stays non-negative). -/
theorem C1_branch_offset_amended_witness :
    ((0x00 : Nat) < 256) ∧ ((0x05 : Nat) < 256) ∧ ((0x00 : Nat) &&& 0x40 = 0) ∧
    ((branchDescriptor [0x00, 0x05] 0).2.2 = 2 ∧
     ((((0x00 : Nat) &&& 0x1f) <<< 8) ||| 0x05) ≤ 0x1fff ∧
     (((((0x00 : Nat) &&& 0x1f) <<< 8) ||| 0x05) ≤ 0x0fff →
       (branchDescriptor [0x00, 0x05] 0).1 = ((((0x00 &&& 0x1f) <<< 8) ||| 0x05 : Nat) : Int)) ∧
     (0x1000 ≤ ((((0x00 : Nat) &&& 0x1f) <<< 8) ||| 0x05) →
       (branchDescriptor [0x00, 0x05] 0).1 =
         ((((0x00 &&& 0x1f) <<< 8) ||| 0x05 : Nat) : Int) - 0x2000)) :=
  ⟨by decide, by decide, by decide,
   C1_branch_offset_amended 0x00 0x05 (by decide) (by decide) (by decide)⟩

/-- C10: with an empty call-frame stack, reading a local variable (1..15)
returns 0 leaving the machine unchanged, and writing a local variable is a
silent no-op that leaves the memory image, the evaluation stack and the frame
stack unchanged; neither operation signals an error. -/
theorem C10_locals_empty_frames (m : Machine) (v val : Nat)
    (h1 : 1 ≤ v) (h2 : v ≤ 15) (hf : m.frames = []) :
    m.read_var (.Variable v) = (0, m) ∧ m.write_var (.Variable v) val = m := by
  have hge : ¬ (v ≥ 0x10) := by omega
  have hz : ¬ (v = 0) := by omega
  constructor
  · simp [Machine.read_var, hge, hz, Machine.read_local, hf]
  · simp [Machine.write_var, hge, hz, Machine.write_local, hf]

/-- C10 witness: reading and writing local variable 3 on a concrete machine
with an empty frame stack. -/
theorem C10_locals_empty_frames_witness :
    (1 ≤ 3 ∧ 3 ≤ 15 ∧ cm10.frames = []) ∧
    (cm10.read_var (.Variable 3) = (0, cm10) ∧ cm10.write_var (.Variable 3) 7 = cm10) :=
  ⟨⟨by decide, by decide, rfl⟩,
   C10_locals_empty_frames cm10 3 7 (by decide) (by decide) rfl⟩

/-- C5 counterexample: the claim states that a LargeConstant operand of
`store` is taken literally as the target variable number; for the operand
Large 0x100 the code truncates it with an `as u8` cast and targets variable 0
instead of 0x100. -/
theorem C5_counterexample :
    convertVariableArg cm5 ci5L = (0, cm5) ∧ ((0 : Nat) ≠ 0x100) := by
  constructor
  · rfl
  · decide

/-- C5 amended: the `store` arm resolves its target with literal-constant
semantics truncated to 8 bits (a Large or Small constant is not dereferenced;
a Variable operand is dereferenced exactly once), and a write through
`Indirect 0` replaces the top of a nonempty evaluation stack without changing
its depth. -/
theorem C5_store_amended (m : Machine) (i : Instruction) :
    (m.op_store i =
      ((convertVariableArg m i).2.read_var (i.args.getD 1 .Omitted)).2.write_var
        (.Indirect (convertVariableArg m i).1)
        ((convertVariableArg m i).2.read_var (i.args.getD 1 .Omitted)).1) ∧
    (∀ c, i.args.getD 0 .Omitted = .Large c → convertVariableArg m i = (c % 256, m)) ∧
    (∀ c, i.args.getD 0 .Omitted = .Small c → convertVariableArg m i = (c, m)) ∧
    (∀ x, i.args.getD 0 .Omitted = .Variable x →
      convertVariableArg m i =
        ((m.read_var (.Variable x)).1 % 256, (m.read_var (.Variable x)).2)) ∧
    (∀ val, m.stack ≠ [] →
      (m.write_var (.Indirect 0) val).stack = m.stack.dropLast ++ [val] ∧
      (m.write_var (.Indirect 0) val).stack.length = m.stack.length) := by
  refine ⟨rfl, ?_, ?_, ?_, ?_⟩
  · intro c h
    unfold convertVariableArg
    rw [h]
  · intro c h
    unfold convertVariableArg
    rw [h]
  · intro x h
    unfold convertVariableArg
    rw [h]
  · intro val hne
    have hlen : 0 < m.stack.length := List.length_pos.mpr hne
    constructor
    · simp [Machine.write_var]
    · simp [Machine.write_var, List.length_dropLast]
      omega

/-- C5 witness: the amended theorem applied to a machine with stack depth 1
and a store instruction whose target operand is Small 3; the indirect write
replaces the stack top without changing the depth. -/
theorem C5_store_amended_witness :
    (ci5.args.getD 0 .Omitted = .Small 3 ∧ cm5.stack ≠ []) ∧
    convertVariableArg cm5 ci5 = (3, cm5) ∧
    ((cm5.write_var (.Indirect 0) 9).stack = cm5.stack.dropLast ++ [9] ∧
     (cm5.write_var (.Indirect 0) 9).stack.length = cm5.stack.length) :=
  ⟨⟨rfl, by decide⟩,
   (C5_store_amended cm5 ci5).2.2.1 3 rfl,
   (C5_store_amended cm5 ci5).2.2.2.2 9 (by decide)⟩

/-- C9 counterexample: the claim states that the two words 0x11AA 0x9CA5
decode to exactly the text hello; they do not. -/
theorem C9_counterexample :
    (ZString.new [0x11, 0xAA, 0x9C, 0xA5] 0).contents ≠ ("hello").toList := by
  decide

/-- C9 amended: decoding the ZString consisting of exactly the two 16-bit
words 0x11AA then 0x9CA5 (shift register initially A0) produces exactly the
text Heb: the codes are 4 (shift to A1), 13 (H), 10 (e), 7 (b), 5, 5 (two
trailing shifts emitting nothing). -/
theorem C9_decode_amended :
    (ZString.new [0x11, 0xAA, 0x9C, 0xA5] 0).contents = ("Heb").toList ∧
    (ZString.new [0x11, 0xAA, 0x9C, 0xA5] 0).length = 4 := by
  constructor <;> decide

theorem isPrefixOf_eq_decide (a b : List Char) :
    a.isPrefixOf b = decide (a <+: b) := by
  by_cases h : a <+: b
  · simp [List.isPrefixOf_iff_prefix, h]
  · simp only [decide_eq_false h]
    rw [← Bool.not_eq_true, List.isPrefixOf_iff_prefix]
    exact h

theorem getWordAux_eq_find (token : List Char) (ws : List ZStr)
    (h : ∀ w ∈ ws, w.contents.length ≤ 6) :
    getWordAux token ws = ws.find? (fun w => specEntryMatch w.contents token) := by
  induction ws with
  | nil => simp [getWordAux]
  | cons w rest ih =>
    have hw := h w (by simp)
    have hr : ∀ x ∈ rest, x.contents.length ≤ 6 := fun x hx => h x (by simp [hx])
    by_cases hlen : w.contents.length < 6
    · by_cases heq : w.contents = token
      · simp [getWordAux, hlen, heq, List.find?_cons, specEntryMatch]
      · simp [getWordAux, hlen, heq, List.find?_cons, specEntryMatch, ih hr]
    · by_cases hpre : w.contents <+: token
      · simp [getWordAux, hlen, List.find?_cons, specEntryMatch,
              isPrefixOf_eq_decide, hpre]
      · simp [getWordAux, hlen, List.find?_cons, specEntryMatch,
              isPrefixOf_eq_decide, hpre, ih hr]

/-- C7: over dictionaries whose decoded entries have at most 6 characters,
`get_word` returns exactly the first entry in table order that matches the
spec rule (entries shorter than 6 characters match only by equality,
full-length entries match whenever they are a prefix of the token), and
returns no match precisely when no entry matches. -/
theorem C7_get_word_first_match (d : Dictionary) (token : List Char)
    (h : ∀ w ∈ d.words, w.contents.length ≤ 6) :
    d.get_word token = d.words.find? (fun w => specEntryMatch w.contents token) ∧
    (d.get_word token = none ↔ ∀ w ∈ d.words, specEntryMatch w.contents token = false) ∧
    (∀ w, d.get_word token = some w → w ∈ d.words ∧ specEntryMatch w.contents token = true) := by
  have he := getWordAux_eq_find token d.words h
  refine ⟨he, ?_, ?_⟩
  · show getWordAux token d.words = none ↔ _
    rw [he, List.find?_eq_none]
    simp
  · intro w hw
    have hw2 : d.words.find? (fun w => specEntryMatch w.contents token) = some w := by
      rw [← he]; exact hw
    refine ⟨List.mem_of_find?_eq_some hw2, ?_⟩
    have hp := List.find?_some hw2
    simpa using hp

/-- C7 witness: lookup of the token abcdefgh in a dictionary with the entries
abc (3 characters, no exact match) and abcdef (full length, a prefix of the
token, and therefore the first match). -/
theorem C7_get_word_first_match_witness :
    (∀ w ∈ cdict7.words, w.contents.length ≤ 6) ∧
    (cdict7.get_word tokenC7 =
      cdict7.words.find? (fun w => specEntryMatch w.contents tokenC7) ∧
     (cdict7.get_word tokenC7 = none ↔
        ∀ w ∈ cdict7.words, specEntryMatch w.contents tokenC7 = false) ∧
     (∀ w, cdict7.get_word tokenC7 = some w →
        w ∈ cdict7.words ∧ specEntryMatch w.contents tokenC7 = true)) :=
  ⟨by decide, C7_get_word_first_match cdict7 tokenC7 (by decide)⟩

/-- C8 counterexample: the claim states that every nonzero (signed 16-bit)
divisor makes `div` and `mod` perform signed division and store a result;
at dividend 0x8000 (-32768) and divisor 0xFFFF (-1) — both reachable as
LargeConstant operands — Rust `i16` division and remainder overflow and the
process aborts (modeled as `none`), so no result is stored and no Break is
produced either. -/
theorem C8_counterexample :
    toI16 0xFFFF ≠ 0 ∧
    cm8.read_var (ci8c.args.getD 0 .Omitted) = (0x8000, cm8) ∧
    cm8.read_var (ci8c.args.getD 1 .Omitted) = (0xFFFF, cm8) ∧
    cm8.op_div ci8c = none ∧
    cm8.op_mod ci8c = none := by
  refine ⟨by decide, rfl, rfl, by decide, by decide⟩

/-- C8 amended: for both `div` and `mod`, a zero (signed 16-bit) divisor
produces `Break("divide by zero\n")` with no result stored (the machine is
exactly the state after operand evaluation); the overflow pair (dividend
-32768 with divisor -1) aborts the interpreter (the Rust overflow panic)
with no result stored; every other nonzero divisor stores the truncated
signed quotient and remainder, which satisfy the division identity, and the
sign of the remainder follows the dividend. -/
theorem C8_div_mod_amended (m m1 m2 : Machine) (i : Instruction) (xr yr : Nat)
    (h1 : m.read_var (i.args.getD 0 .Omitted) = (xr, m1))
    (h2 : m1.read_var (i.args.getD 1 .Omitted) = (yr, m2)) :
    (toI16 yr = 0 →
      m.op_div i = some (.Break ("divide by zero\n"), m2) ∧
      m.op_mod i = some (.Break ("divide by zero\n"), m2)) ∧
    (toI16 xr = -0x8000 → toI16 yr = -1 →
      m.op_div i = none ∧ m.op_mod i = none) ∧
    (toI16 yr ≠ 0 → ¬(toI16 xr = -0x8000 ∧ toI16 yr = -1) →
      m.op_div i = some (.Continue, m2.write_var i.ret (toU16 ((toI16 xr).tdiv (toI16 yr)))) ∧
      m.op_mod i = some (.Continue, m2.write_var i.ret (toU16 ((toI16 xr).tmod (toI16 yr)))) ∧
      (toI16 yr) * ((toI16 xr).tdiv (toI16 yr)) + (toI16 xr).tmod (toI16 yr) = toI16 xr ∧
      (0 ≤ toI16 xr → 0 ≤ (toI16 xr).tmod (toI16 yr)) ∧
      (toI16 xr ≤ 0 → (toI16 xr).tmod (toI16 yr) ≤ 0)) := by
  refine ⟨?_, ?_, ?_⟩
  · intro hy
    constructor
    · simp only [Machine.op_div, h1, h2]
      rw [if_pos hy]
    · simp only [Machine.op_mod, h1, h2]
      rw [if_pos hy]
  · intro hx hyneg
    constructor
    · simp only [Machine.op_div, h1, h2]
      rw [if_neg (by rw [hyneg]; decide), if_pos ⟨hx, hyneg⟩]
    · simp only [Machine.op_mod, h1, h2]
      rw [if_neg (by rw [hyneg]; decide), if_pos ⟨hx, hyneg⟩]
  · intro hy hpair
    refine ⟨?_, ?_, Int.tdiv_add_tmod _ _,
      fun hx => Int.tmod_nonneg _ hx, fun hx => tmod_nonpos_of_nonpos _ _ hx⟩
    · simp only [Machine.op_div, h1, h2]
      rw [if_neg hy, if_neg hpair]
    · simp only [Machine.op_mod, h1, h2]
      rw [if_neg hy, if_neg hpair]

/-- C8 witness: dividing 7 by 0 Breaks with the divide-by-zero reason for
both opcodes, and dividing -7 (0xFFF9) by 2 — a nonzero divisor that is not
the overflow pair — stores the truncated quotient -3 and remainder -1 (sign
following the dividend). -/
theorem C8_div_mod_amended_witness :
    (cm8.read_var (ci8a.args.getD 0 .Omitted) = (7, cm8) ∧
     cm8.read_var (ci8a.args.getD 1 .Omitted) = (0, cm8) ∧
     toI16 0 = 0 ∧
     cm8.op_div ci8a = some (.Break ("divide by zero\n"), cm8) ∧
     cm8.op_mod ci8a = some (.Break ("divide by zero\n"), cm8)) ∧
    (cm8.read_var (ci8b.args.getD 0 .Omitted) = (0xFFF9, cm8) ∧
     cm8.read_var (ci8b.args.getD 1 .Omitted) = (2, cm8) ∧
     toI16 2 ≠ 0 ∧ ¬(toI16 0xFFF9 = -0x8000 ∧ toI16 2 = -1) ∧
     cm8.op_div ci8b =
       some (.Continue, cm8.write_var ci8b.ret (toU16 ((toI16 0xFFF9).tdiv (toI16 2)))) ∧
     cm8.op_mod ci8b =
       some (.Continue, cm8.write_var ci8b.ret (toU16 ((toI16 0xFFF9).tmod (toI16 2))))) :=
  have ha := C8_div_mod_amended cm8 cm8 cm8 ci8a 7 0 rfl rfl
  have hb := C8_div_mod_amended cm8 cm8 cm8 ci8b 0xFFF9 2 rfl rfl
  ⟨⟨rfl, rfl, rfl, (ha.1 rfl).1, (ha.1 rfl).2⟩,
   ⟨rfl, rfl, by decide, by decide,
    (hb.2.2 (by decide) (by decide)).1, (hb.2.2 (by decide) (by decide)).2.1⟩⟩

set_option maxRecDepth 10000 in
/-- C3: evaluation of `get_prop` at the failing input.  The claim states that
a missing property yields the 16-bit default read at byte offset
`(p - 1) * 2` from the object-table base; on an image whose default entry for
property 1 holds the bytes 0x01 0x02 (a 16-bit default of 0x0102), the code
instead interprets the first default byte as a property size byte and returns
only the second byte, 2. -/
theorem C3_get_prop_default_eval :
    getPropValue cmem3 1 1 = some 2 ∧
    read_u16 cmem3 (read_u16 cmem3 0xa + (1 - 1) * 2) = 0x0102 ∧
    ((2 : Nat) ≠ 0x0102) := by
  refine ⟨by decide, by decide, by decide⟩

set_option maxRecDepth 10000 in
/-- C6: evaluation of the `sread` parse loop at the failing input.  The claim
states that the fourth byte of each token record holds the 1-based byte
position of that token; on the input north north (two tokens, the second
starting at position 7) the code writes `input.find(token) + 1 = 1` for the
second token as well, because `find` locates the first occurrence. -/
theorem C6_sread_position_eval :
    sreadTokens cdict6 inputC6 = [("north").toList, ("north").toList] ∧
    read_u8 (sreadParse cmem6 cdict6 inputC6 0) 1 = 2 ∧
    read_u8 (sreadParse cmem6 cdict6 inputC6 0) (2 + 4 * 1 + 3) = 1 ∧
    ((1 : Nat) ≠ 7) := by
  refine ⟨by decide, by decide, by decide, by decide⟩

/-- C2: a call to a nonzero packed routine address pushes a frame whose
`stack_start` is the pre-call stack depth (the operands being constants),
whose return storage is the instruction return descriptor and whose return
address is the call address plus the encoded length; the matching return
(any state whose top frame is that frame) pops the frame, truncates the
evaluation stack to `stack_start`, writes the return value through the frame
return storage (shown here for a global target) and sets `ip` to the frame
return address. -/
theorem C2_call_ret_roundtrip (m : Machine) (i : Instruction) (a0 : Operand) (rest : List Operand)
    (hargs : i.args = a0 :: rest)
    (hconst : ∀ a ∈ i.args, a.isConst = true)
    (hnz : a0.constVal ≠ 0) :
    (m.call i).frames = m.frames ++
      [(⟨m.header.dynamic_start + a0.constVal * 2, m.stack.length,
         read_u8 m.memory (m.header.dynamic_start + a0.constVal * 2), i.ret,
         m.ip + i.length⟩ : Frame)] ∧
    (∀ (mid : Machine) (v : Nat) (f : Frame),
      mid.frames.getLast? = some f →
      f.stack_start ≤ mid.stack.length →
      (mid.ret v).frames = mid.frames.dropLast ∧
      (mid.ret v).ip = f.return_addr ∧
      (∀ g, f.return_storage = .Variable g → 0x10 ≤ g →
        (mid.ret v).stack = mid.stack.take f.stack_start ∧
        (mid.ret v).stack.length = f.stack_start ∧
        (mid.ret v).memory =
          write_u16 mid.memory
            (mid.header.globals + mid.header.dynamic_start + (g - 0x10) * 2) v)) := by
  constructor
  · have h0 : i.args.getD 0 .Omitted = a0 := by rw [hargs]; rfl
    have hdrop : i.args.drop 1 = rest := by rw [hargs]; rfl
    have ha0 : a0.isConst = true := hconst a0 (by rw [hargs]; exact List.mem_cons_self _ _)
    have hrest : ∀ a ∈ rest, a.isConst = true := fun a ha =>
      hconst a (by rw [hargs]; exact List.mem_cons_of_mem _ ha)
    simp only [Machine.call, h0, hdrop, read_var_const m a0 ha0, readVarList_const m rest hrest]
    rw [if_neg (by omega)]
  · intro mid v f hf hs
    simp only [Machine.ret, hf]
    refine ⟨?_, ?_, ?_⟩
    · exact write_var_frames _ _ _
    · trivial
    · intro g hg hge
      rw [hg, write_var_global_eq _ _ _ hge]
      refine ⟨?_, ?_, ?_⟩
      · trivial
      · simp only [List.length_take]
        omega
      · trivial

set_option maxRecDepth 10000 in
/-- C2 witness: a concrete call to packed address 5 (byte address 10, one
local) with argument 0x2222 and result to global 0, followed immediately by
its matching return: the frame records stack depth 0 and return address 105,
and the return restores the stack to depth 0, writes 0x2222 into the global
table at byte 50 and jumps to 105. -/
theorem C2_call_ret_roundtrip_witness :
    (ciC2.args = Operand.Large 5 :: [Operand.Large 0x2222] ∧
     (Operand.Large 5).constVal ≠ 0) ∧
    (cmC2.call ciC2).frames = cmC2.frames ++
      [(⟨cmC2.header.dynamic_start + (Operand.Large 5).constVal * 2, cmC2.stack.length,
         read_u8 cmC2.memory (cmC2.header.dynamic_start + (Operand.Large 5).constVal * 2),
         ciC2.ret, cmC2.ip + ciC2.length⟩ : Frame)] ∧
    (((cmC2.call ciC2).ret 0x2222).frames = (cmC2.call ciC2).frames.dropLast ∧
     ((cmC2.call ciC2).ret 0x2222).ip = 105 ∧
     (((cmC2.call ciC2).ret 0x2222).stack = (cmC2.call ciC2).stack.take 0 ∧
      ((cmC2.call ciC2).ret 0x2222).stack.length = 0 ∧
      ((cmC2.call ciC2).ret 0x2222).memory =
        write_u16 (cmC2.call ciC2).memory
          ((cmC2.call ciC2).header.globals + (cmC2.call ciC2).header.dynamic_start +
            (0x10 - 0x10) * 2) 0x2222)) :=
  have h := C2_call_ret_roundtrip cmC2 ciC2 (.Large 5) [.Large 0x2222] rfl (by decide) (by decide)
  have h2 := h.2 (cmC2.call ciC2) 0x2222 ⟨10, 0, 1, .Variable 0x10, 105⟩ (by decide) (by decide)
  ⟨⟨rfl, by decide⟩, h.1, h2.1, h2.2.1, h2.2.2 0x10 rfl (by decide)⟩

theorem insertObj_eq (mem : List Nat) (o d : Nat) :
    insertObj mem o d =
      Object.write { (Object.new mem d).refresh (detachMem mem o) with child := o }
        (Object.write
          { Object.new mem o with
              parent := d
              sibling := ((Object.new mem d).refresh (detachMem mem o)).child }
          (detachMem mem o)) := rfl

set_option maxRecDepth 10000 in
/-- C4 counterexample: the claim quantifies over every pair of valid object
indices, including O = D; inserting object 1 into itself leaves the parent
link of object 1 at 0 (the destination record, written last, still carries
the detached parent), not at 1 as the claim requires. -/
theorem C4_counterexample :
    read_u8 (insertObj cmem4 1 1) (objAddr cmem4 1 + 4) = 0 ∧ ((0 : Nat) ≠ 1) := by
  refine ⟨by decide, by decide⟩

/-- C4 amended: for every pair of DISTINCT valid object indices O and D (each
at least 1 and below 256) on an image whose detach step preserves the
object-table base and whose two records lie inside the image, after
`insert_obj(O, D)` the parent link of O equals D, the child link of D equals
O, and the sibling link of O equals the child link D had immediately after O
was detached. -/
theorem C4_insert_obj_amended (mem : List Nat) (o d : Nat)
    (ho1 : 1 ≤ o) (ho2 : o < 256) (hd1 : 1 ≤ d) (hd2 : d < 256) (hne : o ≠ d)
    (hbase : read_u16 (detachMem mem o) 0xa = read_u16 mem 0xa)
    (hAo : objAddr mem o + 8 < (detachMem mem o).length)
    (hAd : objAddr mem d + 8 < (detachMem mem o).length) :
    read_u8 (insertObj mem o d) (objAddr mem o + 4) = d ∧
    read_u8 (insertObj mem o d) (objAddr mem d + 6) = o ∧
    read_u8 (insertObj mem o d) (objAddr mem o + 5) =
      read_u8 (detachMem mem o) (objAddr mem d + 6) := by
  rw [insertObj_eq]
  set mem1 := detachMem mem o with hm1
  set dest1 := (Object.new mem d).refresh mem1 with hd1e
  set objW : Object :=
    { Object.new mem o with parent := d, sibling := dest1.child } with hoW
  set destW : Object := { dest1 with child := o } with hdW
  have hiW : objW.index = o := by rw [hoW]; rfl
  have hiD : destW.index = d := by rw [hdW]; rfl
  have hexp_o0 : objAddr mem o = read_u16 mem 0xa + 62 + (o - 1) * 9 := by
    simp [objAddr, DEFAULT_TABLE_SIZE, NUM_DEFAULTS, OBJECT_SIZE]
  have hexp_d0 : objAddr mem d = read_u16 mem 0xa + 62 + (d - 1) * 9 := by
    simp [objAddr, DEFAULT_TABLE_SIZE, NUM_DEFAULTS, OBJECT_SIZE]
  have hexp_o1 : objAddr mem1 o = read_u16 mem 0xa + 62 + (o - 1) * 9 := by
    simp [objAddr, DEFAULT_TABLE_SIZE, NUM_DEFAULTS, OBJECT_SIZE, hbase]
  have hexp_d1 : objAddr mem1 d = read_u16 mem 0xa + 62 + (d - 1) * 9 := by
    simp [objAddr, DEFAULT_TABLE_SIZE, NUM_DEFAULTS, OBJECT_SIZE, hbase]
  have hb2 : read_u16 (objW.write mem1) 0xa = read_u16 mem 0xa := by
    rw [read_u16_objectWrite_outside objW mem1 0xa
          (by rw [hiW]; omega) (by rw [hiW]; omega),
        hbase]
  have hexp_d2 : objAddr (objW.write mem1) d = read_u16 mem 0xa + 62 + (d - 1) * 9 := by
    simp [objAddr, DEFAULT_TABLE_SIZE, NUM_DEFAULTS, OBJECT_SIZE, hb2]
  have hlen2 : (objW.write mem1).length = mem1.length := length_objectWrite _ _
  refine ⟨?_, ?_, ?_⟩
  · have hout : read_u8 (destW.write (objW.write mem1)) (objAddr mem o + 4) =
        read_u8 (objW.write mem1) (objAddr mem o + 4) := by
      apply read_u8_objectWrite_outside
      rw [hiD, hexp_d2, hexp_o0]
      omega
    have hp1 : read_u8 (objW.write mem1) (objAddr mem1 objW.index + 4) = objW.parent % 256 :=
      read_u8_objectWrite_parent _ _ (by rw [hiW, hexp_o1]; omega)
    rw [hiW, hexp_o1, ← hexp_o0] at hp1
    rw [hout, hp1, hoW]
    exact Nat.mod_eq_of_lt hd2
  · have hc2 : read_u8 (destW.write (objW.write mem1))
        (objAddr (objW.write mem1) destW.index + 6) = destW.child % 256 :=
      read_u8_objectWrite_child _ _ (by rw [hiD, hexp_d2, hlen2]; omega)
    rw [hiD, hexp_d2, ← hexp_d0] at hc2
    rw [hc2, hdW]
    exact Nat.mod_eq_of_lt ho2
  · have hout : read_u8 (destW.write (objW.write mem1)) (objAddr mem o + 5) =
        read_u8 (objW.write mem1) (objAddr mem o + 5) := by
      apply read_u8_objectWrite_outside
      rw [hiD, hexp_d2, hexp_o0]
      omega
    have hs1 : read_u8 (objW.write mem1) (objAddr mem1 objW.index + 5) = objW.sibling % 256 :=
      read_u8_objectWrite_sibling _ _ (by rw [hiW, hexp_o1]; omega)
    rw [hiW, hexp_o1, ← hexp_o0] at hs1
    rw [hout, hs1, hoW]
    have hch : dest1.child = read_u8 mem1 (objAddr mem1 d + 6) := by
      rw [hd1e]
      exact refresh_child _ _
    rw [hch, hexp_d1, ← hexp_d0]
    exact Nat.mod_eq_of_lt (read_u8_lt _ _)

set_option maxRecDepth 10000 in
/-- C4 witness: the amended theorem applied to a concrete image with two
detached objects, inserting object 1 into object 2: the parent link of 1
becomes 2, the child link of 2 becomes 1, and the sibling link of 1 equals
the child link 2 had after the detach (0). -/
theorem C4_insert_obj_amended_witness :
    (read_u16 (detachMem cmem4 1) 0xa = read_u16 cmem4 0xa ∧
     objAddr cmem4 1 + 8 < (detachMem cmem4 1).length ∧
     objAddr cmem4 2 + 8 < (detachMem cmem4 1).length) ∧
    (read_u8 (insertObj cmem4 1 2) (objAddr cmem4 1 + 4) = 2 ∧
     read_u8 (insertObj cmem4 1 2) (objAddr cmem4 2 + 6) = 1 ∧
     read_u8 (insertObj cmem4 1 2) (objAddr cmem4 1 + 5) =
       read_u8 (detachMem cmem4 1) (objAddr cmem4 2 + 6)) :=
  ⟨⟨by decide, by decide, by decide⟩,
   C4_insert_obj_amended cmem4 1 2 (by decide) (by decide) (by decide) (by decide) (by decide)
     (by decide) (by decide) (by decide)⟩

end RustZork
